import Mathlib

/-! Verification development for the AnkiGen card-generation script
(`src/app.py`).

The script has three behavioural parts, all shallowly embedded here:

* `structured_output_completion` — processes the outcome of one call to the
  chat-completion endpoint.  The outcome of the call (success with a given
  choice structure, an exception raised by the call itself, or an exception
  raised while inspecting the returned completion) is made an explicit input
  of type `CompletionResult`; the escalated inspection failure is modelled as
  the `Except.error` branch of the return type, mirroring `raise gr.Error`.
* `generate_cards` — the pipeline.  The endpoint is an oracle: `tc` gives the
  outcome of the topic call and `cc j` the outcome of the `j`-th card call
  (the calls are issued strictly in sequence, so indexing them by position is
  a faithful abstraction of the nondeterministic endpoint).  The function
  returns its result together with the number of API calls issued.  A
  returned `gr.Error` value (the missing-credential branch of the source,
  which returns the error object instead of raising) is the `keyError`
  constructor; a raised `gr.Error` is `fatal`; a normal return is `rows`.
* `export_csv` — takes the displayed data-frame and the current state of the
  single output file, and returns the new file state, the returned file
  reference, and whether the insufficient-rows warning was emitted. -/

namespace Ankigen

/-- Mirrors `class Step(BaseModel)`: one reasoning step. -/
structure Step where
  explanation : String
  output : String
deriving Repr, DecidableEq

/-- Mirrors `class Subtopics(BaseModel)`. -/
structure Subtopics where
  steps : List Step
  result : List String
deriving Repr, DecidableEq

/-- Mirrors `class Topics(BaseModel)`. -/
structure Topics where
  result : List Subtopics
deriving Repr, DecidableEq

/-- Mirrors `class CardFront(BaseModel)`: the question is optional. -/
structure CardFront where
  question : Option String := none
deriving Repr, DecidableEq

/-- Mirrors `class CardBack(BaseModel)`: the answer is optional, explanation
and example are required. -/
structure CardBack where
  answer : Option String := none
  explanation : String
  «example» : String
deriving Repr, DecidableEq

/-- Mirrors `class Card(BaseModel)`. -/
structure Card where
  front : CardFront
  back : CardBack
deriving Repr, DecidableEq

/-- Mirrors `class CardList(BaseModel)`. -/
structure CardList where
  topic : String
  cards : List Card
deriving Repr, DecidableEq

/-- Shape of one choice of a completion, as inspected by
`structured_output_completion`: the choice may lack a `message` attribute,
its message may lack a `parsed` attribute, or a parsed payload of the target
shape is present. -/
inductive ChoiceShape (α : Type) where
  | noMessage : ChoiceShape α
  | noParsed : ChoiceShape α
  | parsed : α → ChoiceShape α
deriving Repr, DecidableEq

/-- Outcome of one call to `client.beta.chat.completions.parse`, as seen by
`structured_output_completion`:

* `apiRaises e` — the call itself raised (caught by the first `try` block);
* `success cs` — the call returned a completion; `cs = none` models a
  completion without a `choices` attribute, otherwise the list of choices;
* `inspectRaises e` — an exception occurs while inspecting the completion
  structure (caught by the second `try` block and escalated). -/
inductive CompletionResult (α : Type) where
  | apiRaises : String → CompletionResult α
  | success : Option (List (ChoiceShape α)) → CompletionResult α
  | inspectRaises : String → CompletionResult α
deriving Repr, DecidableEq

/-- Embeds `structured_output_completion` (src/app.py lines 41-76): every
call failure and every missing piece of structure yields absence
(`Except.ok none`, the Python `return None`); a payload in the first choice
is returned; an exception while inspecting the structure is escalated as
`raise gr.Error(f"Processing error: ...")`, modelled by `Except.error`. -/
def structured_output_completion {α : Type} (r : CompletionResult α) :
    Except String (Option α) :=
  match r with
  | .apiRaises _ => .ok none
  | .success none => .ok none
  | .success (some []) => .ok none
  | .success (some (.noMessage :: _)) => .ok none
  | .success (some (.noParsed :: _)) => .ok none
  | .success (some (.parsed a :: _)) => .ok (some a)
  | .inspectRaises e => .error ("Processing error: " ++ e)

/-- The data-frame handed to the export step: the displayed table, a header
row plus data rows of optional cells (`len(d)` is the number of data rows). -/
structure DataFrame where
  headers : List String
  rows : List (List (Option String))
deriving Repr, DecidableEq

/-- Contents of the single output file `anki_deck.csv`
(`d.to_csv(..., index=False)` writes the header and every data row). -/
structure CsvFile where
  header : List String
  data : List (List (Option String))
deriving Repr, DecidableEq

/-- Embeds `export_csv` (src/app.py lines 188-197).  Arguments: the displayed
data-frame and the current state of the output file.  Returns the new file
state, the file reference handed back to the UI (`gr.File(value=...)`), and
whether the insufficient-rows warning was emitted.  Below `MIN_ROWS = 2` the
file is untouched, no reference is returned and the warning fires; otherwise
the full table overwrites the file and a reference to it is returned. -/
def export_csv (d : DataFrame) (fs : Option CsvFile) :
    Option CsvFile × Option String × Bool :=
  if d.rows.length < 2 then
    (fs, none, true)
  else
    (some { header := d.headers, data := d.rows }, some "anki_deck.csv", false)

/-- One data row of the shape produced by the pipeline, used to exercise the
export threshold concretely. -/
def demoCells : List (Option String) :=
  [some "1.1", some "T", none, none, some "e", some "x"]

/-- A displayed table with a single data row. -/
def demoDF1 : DataFrame :=
  { headers := ["Index", "Topic", "Question", "Answer", "Explanation", "Example"],
    rows := [demoCells] }

/-- A displayed table with two data rows. -/
def demoDF2 : DataFrame :=
  { headers := ["Index", "Topic", "Question", "Answer", "Explanation", "Example"],
    rows := [demoCells, demoCells] }

/-- One decimal digit character, as produced by Python `str` on a natural
number. -/
def digitChar : Nat → Char
  | 0 => '0' | 1 => '1' | 2 => '2' | 3 => '3' | 4 => '4'
  | 5 => '5' | 6 => '6' | 7 => '7' | 8 => '8' | 9 => '9'
  | _ => '*'

/-- Fuel-driven decimal digit list; with enough fuel it computes the digits
of `n`, most significant first. -/
def digitCharsAux : Nat → Nat → List Char
  | 0, _ => []
  | fuel + 1, n =>
    if n < 10 then [digitChar n]
    else digitCharsAux fuel (n / 10) ++ [digitChar (n % 10)]

/-- Digit characters of `n`, mirroring Python `str(n)` for a natural
number (so `len (digitChars n)` is Python `len(str(n))`). -/
def digitChars (n : Nat) : List Char := digitCharsAux (n + 1) n

/-- Left-pad a character list with zeros to width `w`, mirroring the Python
format spec `0{w}` applied to a natural number (strings already at least `w`
long are unchanged). -/
def zeroPad (w : Nat) (l : List Char) : List Char :=
  List.replicate (w - l.length) '0' ++ l

/-- The dotted index string of one row,
`f"{card_list_index}.{card_index:0{padding}}"`. -/
def mkIndex (k i pad : Nat) : String :=
  ⟨digitChars k ++ '.' :: zeroPad pad (digitChars i)⟩

/-- One flattened output row:
`[index, topic, question, answer, explanation, example]`. -/
structure Row where
  index : String
  topic : String
  question : Option String
  answer : Option String
  explanation : String
  «example» : String
deriving Repr, DecidableEq

/-- The row built for the card at (1-based) group position `k` and card
position `i`, with padding width `pad`. -/
def mkRow (k i pad : Nat) (tp : String) (c : Card) : Row :=
  { index := mkIndex k i pad, topic := tp, question := c.front.question,
    answer := c.back.answer, explanation := c.back.explanation,
    «example» := c.back.«example» }

/-- Inner loop of the flattening step (`enumerate(card_list.cards, start=1)`):
one `Row` per card, card positions numbered from `i`, every index padded to
width `pad`. -/
def rowsAux (k pad : Nat) (tp : String) : Nat → List Card → List Row
  | _, [] => []
  | i, c :: cs => mkRow k i pad tp c :: rowsAux k pad tp (i + 1) cs

/-- The rows of one card list at group position `k`: the padding width is
computed from this list's own card count, `len(str(total_cards))`. -/
def rowsForCardList (k : Nat) (cl : CardList) : List Row :=
  rowsAux k (digitChars cl.cards.length).length cl.topic 1 cl.cards

/-- Outer loop of the flattening step, group positions numbered from `g`. -/
def flattenAux : Nat → List CardList → List Row
  | _, [] => []
  | g, cl :: cls => rowsForCardList g cl ++ flattenAux (g + 1) cls

/-- Flattens the accumulated card lists into rows
(`enumerate(all_card_lists, start=1)`, src/app.py lines 162-185). -/
def flattenCardLists (ls : List CardList) : List Row := flattenAux 1 ls

/-- The topic labels used by the pipeline (src/app.py lines 130-132): the
nested per-subtopic results flattened in order, truncated to the first `n`
(`[item for subtopic in topics_response.result for item in subtopic.result][:topic_number]`). -/
def topicList (tr : Topics) (n : Nat) : List String :=
  ((tr.result.map Subtopics.result).flatten).take n

/-- Per-topic card-generation loop (src/app.py lines 136-160): one API call
per topic label, `cc j` being the outcome of the `j`-th card call.  Absence
and exceptions — including the escalated inspection error of the invoker,
which the loop's own `except` clause catches — are logged and skipped;
successfully parsed card lists are accumulated in order. -/
def collectCardLists (cc : Nat → CompletionResult CardList) :
    List String → Nat → List CardList
  | [], _ => []
  | _ :: ts, j =>
    match structured_output_completion (cc j) with
    | .error _ => collectCardLists cc ts (j + 1)
    | .ok none => collectCardLists cc ts (j + 1)
    | .ok (some cl) => cl :: collectCardLists cc ts (j + 1)

/-- The parsed card list of one card call, if the call succeeded with a
payload. -/
def okParsed (r : CompletionResult CardList) : Option CardList :=
  match structured_output_completion r with
  | .ok (some cl) => some cl
  | _ => none

/-- The card lists whose calls succeed, in call order — the
specification-side characterisation of the skip-and-continue loop. -/
def successfulLists (cc : Nat → CompletionResult CardList) (count : Nat) :
    List CardList :=
  (List.range count).filterMap (fun j => okParsed (cc j))

/-- Result of `generate_cards`: `keyError` is the returned `gr.Error` value
of the missing-credential branch (returned, not raised, by the source even
though the declared return type is a row list); `fatal` is a raised
`gr.Error`; `rows` is a normal return. -/
inductive PipelineResult where
  | keyError : String → PipelineResult
  | fatal : String → PipelineResult
  | rows : List Row → PipelineResult
deriving Repr, DecidableEq

/-- Embeds `generate_cards` (src/app.py lines 79-185).  `tc` is the outcome
of the topic call and `cc j` the outcome of the `j`-th card call; the second
component of the result is the number of API calls issued.  `subject`,
`cards_per_topic` and `preference_prompt` only shape the prompt text, which
the oracle abstracts, so they do not otherwise enter the computation. -/
def generate_cards (api_key_input subject : String) (topic_number : Nat)
    (cards_per_topic : Nat) (preference_prompt : String)
    (tc : CompletionResult Topics) (cc : Nat → CompletionResult CardList) :
    PipelineResult × Nat :=
  if api_key_input = "" then
    (.keyError "Error: OpenAI API key is required.", 0)
  else
    match structured_output_completion tc with
    | .error e => (.fatal ("Topic generation failed due to " ++ e), 1)
    | .ok none => (.rows [], 1)
    | .ok (some tr) =>
      if tr.result = [] then (.rows [], 1)
      else
        (.rows (flattenCardLists
          (collectCardLists cc (topicList tr topic_number) 0)),
          1 + (topicList tr topic_number).length)

/-- Decimal value of a character list (left fold, digits read as their
distance from `'0'`); on the image of `digitChars`, and on its zero-padded
extensions, this recovers the encoded number. -/
def natVal (l : List Char) : Nat :=
  l.foldl (fun a c => a * 10 + (c.toNat - 48)) 0

/-- Group component of a dotted index string: the decimal value of the
characters before the first dot. -/
def decodeGroup (s : String) : Nat :=
  natVal (s.data.takeWhile (fun c => c != '.'))

/-- Card component of a dotted index string: the decimal value of the
characters after the first dot. -/
def decodeCard (s : String) : Nat :=
  natVal ((s.data.dropWhile (fun c => c != '.')).drop 1)

/-- A structurally valid but semantically minimal card (question and answer
absent), used for concrete runs. -/
def blankCard : Card :=
  { front := { question := none },
    back := { answer := none, explanation := "e", «example» := "x" } }

/-- Two accumulated card lists with different card counts (10 and 3). -/
def demoLists : List CardList :=
  [{ topic := "A", cards := List.replicate 10 blankCard },
    { topic := "B", cards := List.replicate 3 blankCard }]

/-- A topic response with one subtopic group of three labels. -/
def demoTopics : Topics :=
  { result := [{ steps := [], result := ["t1", "t2", "t3"] }] }

/-- A successful topic call returning `demoTopics`. -/
def demoTc : CompletionResult Topics := .success (some [.parsed demoTopics])

/-- A two-card card list. -/
def demoCL2 : CardList := { topic := "T", cards := [blankCard, blankCard] }

/-- A card-call oracle whose second call (position 1) fails. -/
def demoCc : Nat → CompletionResult CardList := fun j =>
  if j = 1 then .apiRaises "service interruption"
  else .success (some [.parsed demoCL2])

/-- A card-call oracle for which every call succeeds with two cards. -/
def demoCcAll : Nat → CompletionResult CardList := fun _ =>
  .success (some [.parsed demoCL2])

/-- A topic response with five labels spread over two subtopic groups. -/
def demoTopics5 : Topics :=
  { result := [{ steps := [], result := ["a", "b"] },
    { steps := [], result := ["c", "d", "e"] }] }

/-- A successful topic call returning `demoTopics5`. -/
def demoTc5 : CompletionResult Topics := .success (some [.parsed demoTopics5])

/-- C2: the structured-completion invoker absorbs every call-level failure as
absence — an exception from the API call itself, a completion without
choices (or with an empty choice list), a first choice without a message,
and a message without a parsed payload all return `none` without raising —
while an exception raised during inspection of the completion structure is
escalated as a fatal `gr.Error` rather than absorbed. -/
theorem claim_C2 (α : Type) (e : String) (rest : List (ChoiceShape α)) (a : α) :
    structured_output_completion (α := α) (.apiRaises e) = .ok none ∧
    structured_output_completion (α := α) (.success none) = .ok none ∧
    structured_output_completion (α := α) (.success (some [])) = .ok none ∧
    structured_output_completion (.success (some (.noMessage :: rest))) = .ok none ∧
    structured_output_completion (.success (some (.noParsed :: rest))) = .ok none ∧
    structured_output_completion (.success (some (.parsed a :: rest))) = .ok (some a) ∧
    structured_output_completion (α := α) (.inspectRaises e) =
      .error ("Processing error: " ++ e) ∧
    ∀ o : Option α, structured_output_completion (α := α) (.inspectRaises e) ≠ .ok o :=
  ⟨rfl, rfl, rfl, rfl, rfl, rfl, rfl, fun o h => by cases h⟩

/-- C6: a table with fewer than 2 rows only emits the non-fatal warning —
the output file is left as it was and no file reference is returned; a table
with at least 2 rows is written in full (header plus every data row) over
whatever file was there before, a reference to the fixed filename is
returned, and no warning is emitted. -/
theorem claim_C6 (d : DataFrame) (fs : Option CsvFile) :
    (d.rows.length < 2 → export_csv d fs = (fs, none, true)) ∧
    (2 ≤ d.rows.length →
      export_csv d fs =
        (some { header := d.headers, data := d.rows }, some "anki_deck.csv", false)) := by
  constructor
  · intro h
    simp [export_csv, h]
  · intro h
    rw [export_csv, if_neg (by omega)]

theorem claim_C6_witness :
    export_csv demoDF1 none = (none, none, true) ∧
    export_csv demoDF2 none =
      (some { header := demoDF2.headers, data := demoDF2.rows },
        some "anki_deck.csv", false) :=
  ⟨(claim_C6 demoDF1 none).1 (by decide), (claim_C6 demoDF2 none).2 (by decide)⟩

/-- C1: with an empty (falsy) API credential the pipeline issues no API call
(the call counter is 0; the client is never even constructed) and stops at
once with the user-visible error value — a `gr.Error` returned in place of a
row list, exactly as the source does — never a normal row list. -/
theorem claim_C1 (subject : String) (n m : Nat) (pref : String)
    (tc : CompletionResult Topics) (cc : Nat → CompletionResult CardList) :
    generate_cards "" subject n m pref tc cc =
      (.keyError "Error: OpenAI API key is required.", 0) ∧
    ∀ rows calls, generate_cards "" subject n m pref tc cc ≠
      (PipelineResult.rows rows, calls) := by
  refine ⟨rfl, ?_⟩
  intro rows calls h
  rw [show generate_cards "" subject n m pref tc cc =
    (.keyError "Error: OpenAI API key is required.", 0) from rfl] at h
  exact absurd (congrArg Prod.fst h) (by simp)

theorem digitChar_toNat (d : Nat) (h : d < 10) : (digitChar d).toNat = 48 + d := by
  interval_cases d <;> rfl

theorem digitChar_ne_dot (d : Nat) : digitChar d ≠ '.' := by
  unfold digitChar
  split <;> decide

theorem mem_digitCharsAux_ne_dot :
    ∀ (f n : Nat) (c : Char), c ∈ digitCharsAux f n → c ≠ '.' := by
  intro f
  induction f with
  | zero => intro n c hc; simp [digitCharsAux] at hc
  | succ f ih =>
    intro n c hc
    rw [digitCharsAux] at hc
    by_cases h : n < 10
    · rw [if_pos h] at hc
      rcases List.mem_singleton.mp hc with rfl
      exact digitChar_ne_dot n
    · rw [if_neg h] at hc
      rcases List.mem_append.mp hc with h' | h'
      · exact ih (n / 10) c h'
      · rcases List.mem_singleton.mp h' with rfl
        exact digitChar_ne_dot (n % 10)

theorem mem_digitChars_ne_dot (n : Nat) (c : Char) (hc : c ∈ digitChars n) :
    c ≠ '.' :=
  mem_digitCharsAux_ne_dot (n + 1) n c hc

theorem natVal_append_digit (l : List Char) (c : Char) :
    natVal (l ++ [c]) = natVal l * 10 + (c.toNat - 48) := by
  simp [natVal, List.foldl_append]

theorem natVal_digitCharsAux :
    ∀ (f n : Nat), n < f → natVal (digitCharsAux f n) = n := by
  intro f
  induction f with
  | zero => intro n h; omega
  | succ f ih =>
    intro n hn
    rw [digitCharsAux]
    by_cases h : n < 10
    · rw [if_pos h]
      simp [natVal, digitChar_toNat n h]
    · rw [if_neg h, natVal_append_digit, ih (n / 10) (by omega),
        digitChar_toNat (n % 10) (by omega)]
      omega

theorem natVal_digitChars (n : Nat) : natVal (digitChars n) = n :=
  natVal_digitCharsAux (n + 1) n (Nat.lt_succ_self n)

theorem natVal_replicate_zero (z : Nat) (l : List Char) :
    natVal (List.replicate z '0' ++ l) = natVal l := by
  induction z with
  | zero => simp
  | succ z ih =>
    rw [List.replicate_succ, List.cons_append]
    show natVal (List.replicate z '0' ++ l) = natVal l
    exact ih

theorem natVal_zeroPad (w i : Nat) : natVal (zeroPad w (digitChars i)) = i := by
  rw [zeroPad, natVal_replicate_zero, natVal_digitChars]

theorem mem_zeroPad_ne_dot (w i : Nat) (c : Char)
    (hc : c ∈ zeroPad w (digitChars i)) : c ≠ '.' := by
  rcases List.mem_append.mp hc with h | h
  · rcases List.eq_of_mem_replicate h with rfl
    decide
  · exact mem_digitChars_ne_dot i c h

theorem takeWhile_append_dot (l r : List Char) (h : ∀ c ∈ l, c ≠ '.') :
    (l ++ '.' :: r).takeWhile (fun c => c != '.') = l := by
  induction l with
  | nil => simp [List.takeWhile]
  | cons c l ih =>
    have hc : (c != '.') = true :=
      bne_iff_ne.mpr (h c (List.mem_cons_self c l))
    rw [List.cons_append, List.takeWhile_cons, hc]
    simp [ih (fun x hx => h x (List.mem_cons_of_mem c hx))]

theorem dropWhile_append_dot (l r : List Char) (h : ∀ c ∈ l, c ≠ '.') :
    (l ++ '.' :: r).dropWhile (fun c => c != '.') = '.' :: r := by
  induction l with
  | nil => simp [List.dropWhile]
  | cons c l ih =>
    have hc : (c != '.') = true :=
      bne_iff_ne.mpr (h c (List.mem_cons_self c l))
    rw [List.cons_append, List.dropWhile_cons, hc]
    simp [ih (fun x hx => h x (List.mem_cons_of_mem c hx))]

theorem decodeGroup_mkIndex (k i pad : Nat) : decodeGroup (mkIndex k i pad) = k := by
  show natVal ((digitChars k ++ '.' :: zeroPad pad (digitChars i)).takeWhile
    (fun c => c != '.')) = k
  rw [takeWhile_append_dot _ _ (mem_digitChars_ne_dot k), natVal_digitChars]

theorem decodeCard_mkIndex (k i pad : Nat) : decodeCard (mkIndex k i pad) = i := by
  show natVal (((digitChars k ++ '.' :: zeroPad pad (digitChars i)).dropWhile
    (fun c => c != '.')).drop 1) = i
  rw [dropWhile_append_dot _ _ (mem_digitChars_ne_dot k)]
  show natVal (zeroPad pad (digitChars i)) = i
  exact natVal_zeroPad pad i

theorem mem_rowsAux {k pad : Nat} {tp : String} :
    ∀ {i : Nat} {cs : List Card} {r : Row}, r ∈ rowsAux k pad tp i cs →
      decodeGroup r.index = k ∧ i ≤ decodeCard r.index ∧
        decodeCard r.index < i + cs.length := by
  intro i cs
  induction cs generalizing i with
  | nil => intro r hr; simp [rowsAux] at hr
  | cons c cs ih =>
    intro r hr
    rw [rowsAux] at hr
    rcases List.mem_cons.mp hr with h | h
    · subst h
      have hdc : decodeCard (mkRow k i pad tp c).index = i := decodeCard_mkIndex k i pad
      refine ⟨decodeGroup_mkIndex k i pad, ?_, ?_⟩
      · rw [hdc]
      · rw [hdc]
        simp only [List.length_cons]
        omega
    · obtain ⟨h1, h2, h3⟩ := ih h
      refine ⟨h1, by omega, ?_⟩
      simp only [List.length_cons]
      omega

theorem length_rowsAux (k pad : Nat) (tp : String) :
    ∀ (i : Nat) (cs : List Card), (rowsAux k pad tp i cs).length = cs.length := by
  intro i cs
  induction cs generalizing i with
  | nil => rfl
  | cons c cs ih => simp [rowsAux, ih]

theorem nodup_rowsAux (k pad : Nat) (tp : String) :
    ∀ (i : Nat) (cs : List Card), ((rowsAux k pad tp i cs).map Row.index).Nodup := by
  intro i cs
  induction cs generalizing i with
  | nil => simp [rowsAux]
  | cons c cs ih =>
    rw [rowsAux, List.map_cons, List.nodup_cons]
    refine ⟨?_, ih (i + 1)⟩
    intro hmem
    obtain ⟨r, hr, hidx⟩ := List.mem_map.mp hmem
    obtain ⟨-, h2, -⟩ := mem_rowsAux hr
    have : decodeCard r.index = i := by
      rw [hidx]
      exact decodeCard_mkIndex k i pad
    omega

theorem mkRow_mem_rowsAux (k pad : Nat) (tp : String) :
    ∀ (cs : List Card) (i j : Nat) (c : Card), cs.get? j = some c →
      mkRow k (i + j) pad tp c ∈ rowsAux k pad tp i cs := by
  intro cs
  induction cs with
  | nil => intro i j c h; simp at h
  | cons c0 cs ih =>
    intro i j c h
    cases j with
    | zero =>
      rw [List.get?] at h
      rcases Option.some.inj h with rfl
      rw [rowsAux]
      exact List.mem_cons_self _ _
    | succ j =>
      rw [List.get?] at h
      rw [rowsAux]
      refine List.mem_cons_of_mem _ ?_
      have := ih (i + 1) j c h
      have harg : i + 1 + j = i + (j + 1) := by omega
      rwa [harg] at this

theorem mem_rowsForCardList {g : Nat} {cl : CardList} {r : Row}
    (hr : r ∈ rowsForCardList g cl) : decodeGroup r.index = g := by
  rw [rowsForCardList] at hr
  exact (mem_rowsAux hr).1

theorem mem_flattenAux :
    ∀ {g : Nat} {ls : List CardList} {r : Row}, r ∈ flattenAux g ls →
      g ≤ decodeGroup r.index ∧ decodeGroup r.index < g + ls.length := by
  intro g ls
  induction ls generalizing g with
  | nil => intro r hr; simp [flattenAux] at hr
  | cons cl ls ih =>
    intro r hr
    rw [flattenAux] at hr
    rcases List.mem_append.mp hr with h | h
    · have hg := mem_rowsForCardList h
      rw [hg]
      simp only [List.length_cons]
      omega
    · obtain ⟨h1, h2⟩ := ih h
      refine ⟨by omega, ?_⟩
      simp only [List.length_cons]
      omega

theorem length_flattenAux :
    ∀ (g : Nat) (ls : List CardList),
      (flattenAux g ls).length = (ls.map fun cl => cl.cards.length).sum := by
  intro g ls
  induction ls generalizing g with
  | nil => rfl
  | cons cl ls ih =>
    simp [flattenAux, rowsForCardList, length_rowsAux, ih (g + 1)]

theorem nodup_flattenAux :
    ∀ (g : Nat) (ls : List CardList),
      ((flattenAux g ls).map Row.index).Nodup := by
  intro g ls
  induction ls generalizing g with
  | nil => simp [flattenAux]
  | cons cl ls ih =>
    rw [flattenAux, List.map_append]
    refine List.Nodup.append ?_ (ih (g + 1)) ?_
    · rw [rowsForCardList]
      exact nodup_rowsAux g _ cl.topic 1 cl.cards
    · intro s hs hs'
      obtain ⟨r1, hr1, e1⟩ := List.mem_map.mp hs
      obtain ⟨r2, hr2, e2⟩ := List.mem_map.mp hs'
      have hg1 : decodeGroup s = g := by
        rw [← e1]; exact mem_rowsForCardList hr1
      have hg2 : g + 1 ≤ decodeGroup s := by
        rw [← e2]; exact (mem_flattenAux hr2).1
      omega

theorem pairwise_le_of_const {l : List Row} {g : Nat}
    (h : ∀ r ∈ l, decodeGroup r.index = g) :
    l.Pairwise (fun a b => decodeGroup a.index ≤ decodeGroup b.index) := by
  induction l with
  | nil => exact List.Pairwise.nil
  | cons a l ih =>
    refine List.Pairwise.cons ?_ (ih fun r hr => h r (List.mem_cons_of_mem a hr))
    intro b hb
    rw [h a (List.mem_cons_self a l), h b (List.mem_cons_of_mem a hb)]

theorem pairwise_flattenAux :
    ∀ (g : Nat) (ls : List CardList),
      (flattenAux g ls).Pairwise
        (fun a b => decodeGroup a.index ≤ decodeGroup b.index) := by
  intro g ls
  induction ls generalizing g with
  | nil => exact List.Pairwise.nil
  | cons cl ls ih =>
    rw [flattenAux]
    refine List.pairwise_append.mpr
      ⟨pairwise_le_of_const (fun r hr => mem_rowsForCardList hr), ih (g + 1), ?_⟩
    intro a ha b hb
    have h1 : decodeGroup a.index = g := mem_rowsForCardList ha
    have h2 : g + 1 ≤ decodeGroup b.index := (mem_flattenAux hb).1
    omega

theorem mkRow_mem_flattenAux :
    ∀ (ls : List CardList) (g k : Nat) (cl : CardList) (j : Nat) (c : Card),
      ls.get? k = some cl → cl.cards.get? j = some c →
      mkRow (g + k) (1 + j) (digitChars cl.cards.length).length cl.topic c ∈
        flattenAux g ls := by
  intro ls
  induction ls with
  | nil => intro g k cl j c h _; simp at h
  | cons cl0 ls ih =>
    intro g k cl j c h hc
    cases k with
    | zero =>
      rw [List.get?] at h
      rcases Option.some.inj h with rfl
      rw [flattenAux]
      refine List.mem_append.mpr (Or.inl ?_)
      rw [rowsForCardList]
      simpa using mkRow_mem_rowsAux g _ cl0.topic cl0.cards 1 j c hc
    | succ k =>
      rw [List.get?] at h
      rw [flattenAux]
      refine List.mem_append.mpr (Or.inr ?_)
      have := ih (g + 1) k cl j c h hc
      have harg : g + 1 + k = g + (k + 1) := by omega
      rwa [harg] at this

theorem filter_flattenAux_group :
    ∀ (ls : List CardList) (g k : Nat) (cl : CardList),
      ls.get? k = some cl →
      (flattenAux g ls).filter (fun r => decodeGroup r.index == g + k) =
        rowsForCardList (g + k) cl := by
  intro ls
  induction ls with
  | nil => intro g k cl h; simp at h
  | cons cl0 ls ih =>
    intro g k cl h
    cases k with
    | zero =>
      rw [List.get?] at h
      rcases Option.some.inj h with rfl
      rw [flattenAux, List.filter_append]
      have h1 : (rowsForCardList g cl0).filter
          (fun r => decodeGroup r.index == g + 0) = rowsForCardList g cl0 := by
        refine List.filter_eq_self.mpr ?_
        intro r hr
        simpa using mem_rowsForCardList hr
      have h2 : (flattenAux (g + 1) ls).filter
          (fun r => decodeGroup r.index == g + 0) = [] := by
        refine List.filter_eq_nil.mpr ?_
        intro r hr
        have := (mem_flattenAux hr).1
        simp only [beq_iff_eq]
        omega
      rw [h1, h2, List.append_nil, Nat.add_zero]
    | succ k =>
      rw [List.get?] at h
      rw [flattenAux, List.filter_append]
      have h1 : (rowsForCardList g cl0).filter
          (fun r => decodeGroup r.index == g + (k + 1)) = [] := by
        refine List.filter_eq_nil.mpr ?_
        intro r hr
        have := mem_rowsForCardList hr
        simp only [beq_iff_eq]
        omega
      have h2 := ih (g + 1) k cl h
      have harg : g + 1 + k = g + (k + 1) := by omega
      rw [harg] at h2
      rw [h1, h2, List.nil_append]

theorem collect_eq_filterMap (cc : Nat → CompletionResult CardList) :
    ∀ (ts : List String) (j : Nat),
      collectCardLists cc ts j =
        (List.range ts.length).filterMap (fun r => okParsed (cc (j + r))) := by
  intro ts
  induction ts with
  | nil => intro j; simp [collectCardLists]
  | cons t ts ih =>
    intro j
    have hcomp : ((fun r => okParsed (cc (j + r))) ∘ Nat.succ) =
        (fun r => okParsed (cc (j + 1 + r))) := by
      funext r
      show okParsed (cc (j + (r + 1))) = okParsed (cc (j + 1 + r))
      have harg : j + (r + 1) = j + 1 + r := by omega
      rw [harg]
    cases hcall : structured_output_completion (cc j) with
    | error e =>
      have hok : okParsed (cc j) = none := by simp [okParsed, hcall]
      simp only [collectCardLists, hcall, List.length_cons,
        List.range_succ_eq_map, List.filterMap_cons, Nat.add_zero, hok,
        List.filterMap_map, hcomp, ih (j + 1)]
    | ok o =>
      cases o with
      | none =>
        have hok : okParsed (cc j) = none := by simp [okParsed, hcall]
        simp only [collectCardLists, hcall, List.length_cons,
          List.range_succ_eq_map, List.filterMap_cons, Nat.add_zero, hok,
          List.filterMap_map, hcomp, ih (j + 1)]
      | some cl =>
        have hok : okParsed (cc j) = some cl := by simp [okParsed, hcall]
        simp only [collectCardLists, hcall, List.length_cons,
          List.range_succ_eq_map, List.filterMap_cons, Nat.add_zero, hok,
          List.filterMap_map, hcomp, ih (j + 1)]

theorem collect_eq_successfulLists (cc : Nat → CompletionResult CardList)
    (ts : List String) :
    collectCardLists cc ts 0 = successfulLists cc ts.length := by
  rw [collect_eq_filterMap cc ts 0, successfulLists]
  simp

theorem filterMap_eq_map_of_some {α β : Type} (f : α → Option β) (g : α → β) :
    ∀ (l : List α), (∀ a ∈ l, f a = some (g a)) → l.filterMap f = l.map g := by
  intro l
  induction l with
  | nil => intro _; rfl
  | cons a l ih =>
    intro h
    rw [List.map_cons, List.filterMap_cons,
      h a (List.mem_cons_self a l), ih (fun x hx => h x (List.mem_cons_of_mem a hx))]

theorem sum_map_const {α : Type} (h : α → Nat) (m : Nat) :
    ∀ (l : List α), (∀ a ∈ l, h a = m) → (l.map h).sum = l.length * m := by
  intro l
  induction l with
  | nil => intro _; simp
  | cons a l ih =>
    intro hall
    rw [List.map_cons, List.sum_cons, hall a (List.mem_cons_self a l),
      ih (fun x hx => hall x (List.mem_cons_of_mem a hx)), List.length_cons]
    ring

theorem generate_cards_ok (key subject : String) (n m : Nat) (pref : String)
    (tc : CompletionResult Topics) (cc : Nat → CompletionResult CardList)
    (tr : Topics) (hkey : key ≠ "")
    (htc : structured_output_completion tc = .ok (some tr))
    (hne : tr.result ≠ []) :
    generate_cards key subject n m pref tc cc =
      (.rows (flattenCardLists (collectCardLists cc (topicList tr n) 0)),
        1 + (topicList tr n).length) := by
  rw [generate_cards, if_neg hkey, htc]
  simp [hne]

/-- C3: every row's card-position suffix is zero-padded to width
`len(str(T))` where `T` is the card count of that row's own topic list — the
row for card `j + 1` of the list at group position `k + 1` carries index
`mkIndex (1 + k) (1 + j) (digitChars cl.cards.length).length` — and the
width is per-topic, not global: in one and the same output a 10-card topic
is padded `01..10` while a 3-card topic stays unpadded `1..3`. -/
theorem claim_C3 :
    (∀ (ls : List CardList) (k j : Nat) (cl : CardList) (c : Card),
      ls.get? k = some cl → cl.cards.get? j = some c →
        mkRow (1 + k) (1 + j) (digitChars cl.cards.length).length cl.topic c ∈
          flattenCardLists ls) ∧
    (flattenCardLists demoLists).map Row.index =
      ["1.01", "1.02", "1.03", "1.04", "1.05", "1.06", "1.07", "1.08", "1.09",
        "1.10", "2.1", "2.2", "2.3"] := by
  constructor
  · intro ls k j cl c h1 h2
    exact mkRow_mem_flattenAux ls 1 k cl j c h1 h2
  · decide

theorem claim_C3_witness :
    mkRow 2 3 1 "B" blankCard ∈ flattenCardLists demoLists :=
  claim_C3.1 demoLists 1 2 { topic := "B", cards := List.replicate 3 blankCard }
    blankCard rfl rfl

/-- C4: when card generation fails for some topics the pipeline skips them
and keeps going — the accumulated lists are exactly the successful calls in
call order (`successfulLists`) — and the flattening numbers those surviving
lists consecutively from 1 (each row's group prefix lies in
`1..(number of successes)`), not by original topic position. -/
theorem claim_C4 (key subject : String) (n m : Nat) (pref : String)
    (tc : CompletionResult Topics) (cc : Nat → CompletionResult CardList)
    (tr : Topics) (hkey : key ≠ "")
    (htc : structured_output_completion tc = .ok (some tr))
    (hne : tr.result ≠ []) :
    generate_cards key subject n m pref tc cc =
      (.rows (flattenCardLists (successfulLists cc (topicList tr n).length)),
        1 + (topicList tr n).length) ∧
    ∀ r ∈ flattenCardLists (successfulLists cc (topicList tr n).length),
      1 ≤ decodeGroup r.index ∧
      decodeGroup r.index ≤ (successfulLists cc (topicList tr n).length).length := by
  constructor
  · rw [generate_cards_ok key subject n m pref tc cc tr hkey htc hne,
      collect_eq_successfulLists]
  · intro r hr
    have h := mem_flattenAux (g := 1) hr
    omega

theorem claim_C4_witness :
    generate_cards "k" "s" 3 2 "p" demoTc demoCc =
      (.rows (flattenCardLists (successfulLists demoCc (topicList demoTopics 3).length)),
        1 + (topicList demoTopics 3).length) ∧
    (flattenCardLists (successfulLists demoCc (topicList demoTopics 3).length)).map
      Row.index = ["1.1", "1.2", "2.1", "2.2"] :=
  ⟨(claim_C4 "k" "s" 3 2 "p" demoTc demoCc demoTopics (by decide) rfl
    (by decide)).1, by decide⟩

/-- C5: the nested per-subtopic results are flattened into one ordered label
sequence and truncated to the first `n` labels — the used list is a prefix
of the flattened sequence of length `min n (total labels)`, so excess labels
are silently dropped and fewer than `n` labels pass through — and the run
still returns normally, issuing one card call per kept label. -/
theorem claim_C5 (key subject : String) (n m : Nat) (pref : String)
    (tc : CompletionResult Topics) (cc : Nat → CompletionResult CardList)
    (tr : Topics) (hkey : key ≠ "")
    (htc : structured_output_completion tc = .ok (some tr))
    (hne : tr.result ≠ []) :
    (∃ t, (tr.result.map Subtopics.result).flatten = topicList tr n ++ t) ∧
    (topicList tr n).length = min n ((tr.result.map Subtopics.result).flatten).length ∧
    generate_cards key subject n m pref tc cc =
      (.rows (flattenCardLists (collectCardLists cc (topicList tr n) 0)),
        1 + (topicList tr n).length) := by
  refine ⟨⟨((tr.result.map Subtopics.result).flatten).drop n, ?_⟩, ?_, ?_⟩
  · rw [topicList, List.take_append_drop]
  · rw [topicList, List.length_take]
  · exact generate_cards_ok key subject n m pref tc cc tr hkey htc hne

theorem claim_C5_witness :
    (∃ t, (demoTopics5.result.map Subtopics.result).flatten =
      topicList demoTopics5 3 ++ t) ∧
    (topicList demoTopics5 3).length =
      min 3 ((demoTopics5.result.map Subtopics.result).flatten).length ∧
    generate_cards "k" "s" 3 2 "p" demoTc5 demoCcAll =
      (.rows (flattenCardLists (collectCardLists demoCcAll (topicList demoTopics5 3) 0)),
        1 + (topicList demoTopics5 3).length) :=
  claim_C5 "k" "s" 3 2 "p" demoTc5 demoCcAll demoTopics5 (by decide) rfl (by decide)

/-- C7: a topic call that yields absence, or a topic result whose collection
is empty, aborts the run as a soft empty result — a normal return of no rows
after the single topic call — while (by contrast) an exception during the
inspection of the topic completion escalates to the raised fatal error. -/
theorem claim_C7 (key subject : String) (n m : Nat) (pref : String)
    (tc : CompletionResult Topics) (cc : Nat → CompletionResult CardList)
    (hkey : key ≠ "") :
    (structured_output_completion tc = .ok none →
      generate_cards key subject n m pref tc cc = (.rows [], 1)) ∧
    (∀ tr, structured_output_completion tc = .ok (some tr) → tr.result = [] →
      generate_cards key subject n m pref tc cc = (.rows [], 1)) ∧
    (∀ e, structured_output_completion tc = .error e →
      generate_cards key subject n m pref tc cc =
        (.fatal ("Topic generation failed due to " ++ e), 1)) := by
  refine ⟨?_, ?_, ?_⟩
  · intro h
    rw [generate_cards, if_neg hkey, h]
  · intro tr h hres
    rw [generate_cards, if_neg hkey, h]
    simp [hres]
  · intro e h
    rw [generate_cards, if_neg hkey, h]

theorem claim_C7_witness :
    generate_cards "k" "s" 2 2 "p" (.apiRaises "down") demoCcAll = (.rows [], 1) ∧
    generate_cards "k" "s" 2 2 "p" (.success (some [.parsed { result := [] }]))
      demoCcAll = (.rows [], 1) ∧
    generate_cards "k" "s" 2 2 "p" (.inspectRaises "boom") demoCcAll =
      (.fatal ("Topic generation failed due to " ++ ("Processing error: " ++ "boom")),
        1) := by
  refine ⟨?_, ?_, ?_⟩
  · exact (claim_C7 "k" "s" 2 2 "p" (.apiRaises "down") demoCcAll (by decide)).1 rfl
  · exact (claim_C7 "k" "s" 2 2 "p" (.success (some [.parsed { result := [] }]))
      demoCcAll (by decide)).2.1 { result := [] } rfl rfl
  · exact (claim_C7 "k" "s" 2 2 "p" (.inspectRaises "boom") demoCcAll
      (by decide)).2.2 ("Processing error: " ++ "boom") rfl

/-- C8: whenever the pipeline returns a row list, the index strings are
pairwise distinct and the rows are grouped contiguously in card-list order:
the group component of the indices is monotonically nondecreasing along the
output. -/
theorem claim_C8 (key subject : String) (n m : Nat) (pref : String)
    (tc : CompletionResult Topics) (cc : Nat → CompletionResult CardList)
    (rows : List Row) (calls : Nat)
    (h : generate_cards key subject n m pref tc cc = (.rows rows, calls)) :
    (rows.map Row.index).Nodup ∧
    rows.Pairwise (fun a b => decodeGroup a.index ≤ decodeGroup b.index) := by
  by_cases hkey : key = ""
  · rw [hkey, generate_cards] at h
    simp at h
  · rw [generate_cards, if_neg hkey] at h
    cases htc : structured_output_completion tc with
    | error e =>
      rw [htc] at h
      simp at h
    | ok o =>
      rw [htc] at h
      cases o with
      | none =>
        simp only [Prod.mk.injEq, PipelineResult.rows.injEq] at h
        obtain ⟨rfl, -⟩ := h
        exact ⟨List.nodup_nil, List.Pairwise.nil⟩
      | some tr =>
        replace h : (if tr.result = [] then ((PipelineResult.rows [] : PipelineResult), 1)
            else (PipelineResult.rows
                (flattenCardLists (collectCardLists cc (topicList tr n) 0)),
              1 + (topicList tr n).length)) = (PipelineResult.rows rows, calls) := h
        by_cases hne : tr.result = []
        · rw [if_pos hne] at h
          simp only [Prod.mk.injEq, PipelineResult.rows.injEq] at h
          obtain ⟨rfl, -⟩ := h
          exact ⟨List.nodup_nil, List.Pairwise.nil⟩
        · rw [if_neg hne] at h
          simp only [Prod.mk.injEq, PipelineResult.rows.injEq] at h
          obtain ⟨rfl, -⟩ := h
          exact ⟨nodup_flattenAux 1 _, pairwise_flattenAux 1 _⟩

theorem claim_C8_witness :
    ((flattenCardLists (collectCardLists demoCc (topicList demoTopics 3) 0)).map
      Row.index).Nodup ∧
    (flattenCardLists (collectCardLists demoCc (topicList demoTopics 3) 0)).Pairwise
      (fun a b => decodeGroup a.index ≤ decodeGroup b.index) :=
  claim_C8 "k" "s" 3 2 "p" demoTc demoCc
    (flattenCardLists (collectCardLists demoCc (topicList demoTopics 3) 0)) 4 rfl

/-- C9: when the topic call succeeds and every card call succeeds, each
returning `cards_returned` cards, the number of output rows is exactly
(topics actually generated) × (cards actually returned per topic): every
returned card contributes one row and nothing else contributes any. -/
theorem claim_C9 (key subject : String) (n m : Nat) (pref : String)
    (tc : CompletionResult Topics) (cc : Nat → CompletionResult CardList)
    (tr : Topics) (cls : Nat → CardList) (cards_returned : Nat)
    (hkey : key ≠ "")
    (htc : structured_output_completion tc = .ok (some tr))
    (hne : tr.result ≠ [])
    (hsucc : ∀ j, j < (topicList tr n).length →
      structured_output_completion (cc j) = .ok (some (cls j)))
    (hcount : ∀ j, j < (topicList tr n).length →
      (cls j).cards.length = cards_returned) :
    ∃ rows, generate_cards key subject n m pref tc cc =
        (.rows rows, 1 + (topicList tr n).length) ∧
      rows.length = (topicList tr n).length * cards_returned := by
  refine ⟨_, generate_cards_ok key subject n m pref tc cc tr hkey htc hne, ?_⟩
  rw [collect_eq_successfulLists, successfulLists,
    filterMap_eq_map_of_some (fun j => okParsed (cc j)) cls
      (List.range (topicList tr n).length)
      (by
        intro j hj
        simp [okParsed, hsucc j (List.mem_range.mp hj)])]
  rw [flattenCardLists, length_flattenAux, List.map_map]
  rw [sum_map_const _ cards_returned _
      (by
        intro j hj
        exact hcount j (List.mem_range.mp hj))]
  rw [List.length_range]

theorem claim_C9_witness :
    ∃ rows, generate_cards "k" "s" 3 5 "p" demoTc demoCcAll =
        (.rows rows, 1 + (topicList demoTopics 3).length) ∧
      rows.length = (topicList demoTopics 3).length * 2 :=
  claim_C9 "k" "s" 3 5 "p" demoTc demoCcAll demoTopics (fun _ => demoCL2) 2
    (by decide) rfl (by decide) (fun _ _ => rfl) (fun _ _ => rfl)

/-- C10: the pipeline never truncates or pads a returned card list.  With the
per-call outcomes fixed, the whole run is independent of the requested
cards-per-topic count (which only shapes the prompt text the oracle
abstracts); and for every successfully collected list, the rows carrying its
group prefix are exactly one row per returned card — as many rows as the
model returned cards, however many were requested. -/
theorem claim_C10 (key subject : String) (n m m' : Nat) (pref : String)
    (tc : CompletionResult Topics) (cc : Nat → CompletionResult CardList)
    (tr : Topics) (hkey : key ≠ "")
    (htc : structured_output_completion tc = .ok (some tr))
    (hne : tr.result ≠ []) :
    generate_cards key subject n m pref tc cc =
      generate_cards key subject n m' pref tc cc ∧
    generate_cards key subject n m pref tc cc =
      (.rows (flattenCardLists (collectCardLists cc (topicList tr n) 0)),
        1 + (topicList tr n).length) ∧
    ∀ (k : Nat) (cl : CardList),
      (collectCardLists cc (topicList tr n) 0).get? k = some cl →
      (flattenCardLists (collectCardLists cc (topicList tr n) 0)).filter
          (fun r => decodeGroup r.index == 1 + k) = rowsForCardList (1 + k) cl ∧
      (rowsForCardList (1 + k) cl).length = cl.cards.length := by
  refine ⟨rfl, generate_cards_ok key subject n m pref tc cc tr hkey htc hne, ?_⟩
  intro k cl h
  constructor
  · exact filter_flattenAux_group _ 1 k cl h
  · rw [rowsForCardList, length_rowsAux]

theorem claim_C10_witness :
    generate_cards "k" "s" 3 5 "p" demoTc demoCc =
      generate_cards "k" "s" 3 7 "p" demoTc demoCc ∧
    (flattenCardLists (collectCardLists demoCc (topicList demoTopics 3) 0)).filter
        (fun r => decodeGroup r.index == 1 + 1) = rowsForCardList (1 + 1) demoCL2 ∧
    (rowsForCardList (1 + 1) demoCL2).length = demoCL2.cards.length := by
  obtain ⟨h1, h2, h3⟩ := claim_C10 "k" "s" 3 5 7 "p" demoTc demoCc demoTopics
    (by decide) rfl (by decide)
  obtain ⟨hf, hl⟩ := h3 1 demoCL2 rfl
  exact ⟨h1, hf, hl⟩

theorem claim_C1_witness :
    generate_cards "" "s" 2 3 "p" demoTc demoCcAll =
      (.keyError "Error: OpenAI API key is required.", 0) ∧
    generate_cards "" "s" 2 3 "p" demoTc demoCcAll ≠
      (PipelineResult.rows [], 0) :=
  ⟨(claim_C1 "s" 2 3 "p" demoTc demoCcAll).1,
    fun h => (claim_C1 "s" 2 3 "p" demoTc demoCcAll).2 [] 0 h⟩

theorem claim_C2_witness :
    structured_output_completion (α := Topics) (.apiRaises "x") = .ok none ∧
    structured_output_completion (α := Topics) (.inspectRaises "x") =
      .error ("Processing error: " ++ "x") :=
  ⟨(claim_C2 Topics "x" [] demoTopics).1,
    (claim_C2 Topics "x" [] demoTopics).2.2.2.2.2.2.1⟩

end Ankigen
